import Mathlib

/-!
Shallow embedding of the `sample1` transparent price cache (`cache.go`).

Modelling conventions:
- Go `float64` prices are only returned, stored and compared by the cache,
  never computed with; they are modelled by `Int`.
- `time.Time` instants and `time.Duration` are modelled by `Int`;
  `time.Since(t)` at instant `now` is `now - t`.
- Go errors are modelled by `Option String` (`none` = nil error); the value
  carried is the message reachable through `err.Error()`, so the wrapping
  `fmt.Errorf("getting price from service : %v", err.Error())` becomes a
  string concatenation.
- The Go map `map[string]priceValue` is modelled by an association list with
  unique keys reachable through `lookupStore` and `storeInsert`.
- The collaborator `PriceService` is a deterministic function
  `String -> Int × Option String`, mirroring `GetPriceFor(itemCode string)
  (float64, error)`.
- The field `svcCalls` is instrumentation counting collaborator invocations;
  it corresponds to no Go field and is read by no branch of the code.
- Concurrency in `GetPricesFor` is modelled at task granularity: each worker
  goroutine runs its `GetPriceFor` atomically (the store write is guarded by
  `c.mutex` in the source), and the nondeterministic order in which worker
  results arrive on the buffered channel is an explicit schedule parameter
  `order`, a permutation of the requested item codes. Theorems quantify over
  all such schedules.
-/

/-- One memoized result: Go struct `priceValue { Price float64; CreatedAt time.Time }`. -/
structure priceValue where
  Price : Int
  CreatedAt : Int
deriving DecidableEq, Repr

/-- One worker result: Go struct `priceResponse { Price float64; Err error }`. -/
structure priceResponse where
  Price : Int
  Err : Option String
deriving DecidableEq, Repr

/-- Lookup in the cache map, Go `v, ok := c.prices[itemCode]`. -/
def lookupStore : List (String × priceValue) → String → Option priceValue
  | [], _ => none
  | (k, v) :: rest, key => if k = key then some v else lookupStore rest key

/-- Map write, Go `c.prices[itemCode] = ...`: overwrites the entry for the key
if present, otherwise appends it. -/
def storeInsert : List (String × priceValue) → String → priceValue → List (String × priceValue)
  | [], key, val => [(key, val)]
  | (k, v) :: rest, key, val =>
      if k = key then (key, val) :: rest else (k, v) :: storeInsert rest key val

/-- The cache, Go struct `TransparentCache`.  The mutex is not represented:
tasks are modelled as atomic (see the header).  `svcCalls` is instrumentation. -/
structure TransparentCache where
  actualPriceService : String → Int × Option String
  maxAge : Int
  prices : List (String × priceValue)
  svcCalls : Nat

/-- Go `NewTransparentCache`: fresh cache with an empty store. -/
def NewTransparentCache (actualPriceService : String → Int × Option String)
    (maxAge : Int) : TransparentCache :=
  { actualPriceService := actualPriceService
    maxAge := maxAge
    prices := []
    svcCalls := 0 }

/-- The fall-through tail of Go `GetPriceFor`: call the collaborator; on error
return `(0, wrapped error)` leaving the store unchanged; on success write the
new entry (under the mutex) and return the price. -/
def fetchAndCache (c : TransparentCache) (now : Int) (itemCode : String) :
    (Int × Option String) × TransparentCache :=
  match c.actualPriceService itemCode with
  | (_, some e) =>
      ((0, some ("getting price from service : " ++ e)),
       { c with svcCalls := c.svcCalls + 1 })
  | (price, none) =>
      ((price, none),
       { c with
           svcCalls := c.svcCalls + 1
           prices := storeInsert c.prices itemCode ⟨price, now⟩ })

/-- Go `(c *TransparentCache) GetPriceFor`: serve a fresh cached entry, else
fall through to the collaborator. `now` is the current instant (`time.Now`). -/
def TransparentCache.GetPriceFor (c : TransparentCache) (now : Int) (itemCode : String) :
    (Int × Option String) × TransparentCache :=
  match lookupStore c.prices itemCode with
  | some v =>
      if now - v.CreatedAt < c.maxAge then ((v.Price, none), c)
      else fetchAndCache c now itemCode
  | none => fetchAndCache c now itemCode

/-- The condition under which Go `GetPriceFor` reaches the collaborator call:
the key is absent, or the entry's age is at least `maxAge`. -/
def isStaleOrMissing (c : TransparentCache) (now : Int) (itemCode : String) : Bool :=
  match lookupStore c.prices itemCode with
  | none => true
  | some v => if now - v.CreatedAt < c.maxAge then false else true

/-- The worker goroutines of Go `GetPricesFor`, sequenced in the schedule
order in which their results arrive on the channel: each runs `GetPriceFor`
on the evolving shared cache and emits a `priceResponse`. -/
def runTasks (now : Int) : List String → TransparentCache →
    List priceResponse × TransparentCache
  | [], c => ([], c)
  | code :: rest, c =>
      let r := c.GetPriceFor now code
      let out := runTasks now rest r.2
      (⟨r.1.1, r.1.2⟩ :: out.1, out.2)

/-- The collection loop of Go `GetPricesFor`: read the responses in channel
order, stop at the first error returning the results accumulated so far. -/
def collectResults : List priceResponse → List Int × Option String
  | [] => ([], none)
  | r :: rest =>
      match r.Err with
      | some e => ([], some e)
      | none =>
          let out := collectResults rest
          (r.Price :: out.1, out.2)

/-- Go `(c *TransparentCache) GetPricesFor(itemCodes ...string)`.  `order` is
the completion schedule: the requested item codes in the order their workers'
results arrive on the channel (a permutation of the argument list). -/
def TransparentCache.GetPricesFor (c : TransparentCache) (now : Int) (order : List String) :
    (List Int × Option String) × TransparentCache :=
  let tasks := runTasks now order c
  (collectResults tasks.1, tasks.2)

/-! ### Fixtures for concrete evaluations -/

/-- A collaborator that always answers price 10. -/
def svcTen : String → Int × Option String := fun _ => (10, none)

/-- A collaborator that fails for item "B" and answers price 1 otherwise. -/
def svcBoom : String → Int × Option String :=
  fun code => if code = "B" then (0, some "boom") else (1, none)

/-- A fresh cache over `svcTen` with a one-minute freshness window. -/
def cacheEmpty : TransparentCache := NewTransparentCache svcTen 60

/-- A fresh cache over `svcBoom` with a one-minute freshness window. -/
def cacheFail : TransparentCache := NewTransparentCache svcBoom 60

/-- A cache over `svcTen` holding one entry for "A" written at instant 0. -/
def cacheStale : TransparentCache :=
  { actualPriceService := svcTen
    maxAge := 60
    prices := [("A", ⟨7, 0⟩)]
    svcCalls := 1 }


/-- A collaborator answering price 1 for "A" and price 2 for any other item. -/
def svcAB : String → Int × Option String :=
  fun code => if code = "A" then (1, none) else (2, none)

/-- A fresh cache over `svcAB` with a one-minute freshness window. -/
def cacheAB : TransparentCache := NewTransparentCache svcAB 60

/-- The store invariant: every entry present in the mapping records a price
that the (deterministic) collaborator successfully returns for its key, so
every entry was produced by a successful upstream call. -/
def StoreInv (c : TransparentCache) : Prop :=
  ∀ k v, lookupStore c.prices k = some v → c.actualPriceService k = (v.Price, none)

/-! ### Basic store lemmas -/

theorem lookupStore_storeInsert_self (st : List (String × priceValue))
    (k : String) (v : priceValue) :
    lookupStore (storeInsert st k v) k = some v := by
  induction st with
  | nil => simp [storeInsert, lookupStore]
  | cons hd tl ih =>
      obtain ⟨k0, v0⟩ := hd
      by_cases h : k0 = k
      · simp [storeInsert, lookupStore, h]
      · simp [storeInsert, lookupStore, h, ih]

theorem lookupStore_storeInsert_ne (st : List (String × priceValue))
    (k k' : String) (v : priceValue) (h : k' ≠ k) :
    lookupStore (storeInsert st k v) k' = lookupStore st k' := by
  have hk : ¬ k = k' := fun hh => h hh.symm
  induction st with
  | nil => simp [storeInsert, lookupStore, hk]
  | cons hd tl ih =>
      obtain ⟨k0, v0⟩ := hd
      by_cases h0 : k0 = k
      · subst h0
        simp [storeInsert, lookupStore, hk]
      · by_cases h1 : k0 = k'
        · simp [storeInsert, lookupStore, h0, h1, h]
        · simp [storeInsert, lookupStore, h0, h1, ih]

/-! ### Single-call step lemmas -/

theorem getPriceFor_hit (c : TransparentCache) (now : Int) (k : String)
    (v : priceValue) (hv : lookupStore c.prices k = some v)
    (hfresh : now - v.CreatedAt < c.maxAge) :
    c.GetPriceFor now k = ((v.Price, none), c) := by
  unfold TransparentCache.GetPriceFor
  rw [hv]
  simp [hfresh]

theorem getPriceFor_fetch (c : TransparentCache) (now : Int) (k : String)
    (h : isStaleOrMissing c now k = true) :
    c.GetPriceFor now k = fetchAndCache c now k := by
  unfold TransparentCache.GetPriceFor
  unfold isStaleOrMissing at h
  cases hl : lookupStore c.prices k with
  | none => rfl
  | some v =>
      rw [hl] at h
      by_cases hf : now - v.CreatedAt < c.maxAge
      · simp [hf] at h
      · simp [hf]

theorem fetchAndCache_success (c : TransparentCache) (now : Int) (k : String)
    (p : Int) (hsvc : c.actualPriceService k = (p, none)) :
    fetchAndCache c now k =
      ((p, none),
       { c with
           svcCalls := c.svcCalls + 1
           prices := storeInsert c.prices k ⟨p, now⟩ }) := by
  unfold fetchAndCache
  rw [hsvc]

theorem fetchAndCache_failure (c : TransparentCache) (now : Int) (k : String)
    (q : Int) (e : String) (hsvc : c.actualPriceService k = (q, some e)) :
    fetchAndCache c now k =
      ((0, some ("getting price from service : " ++ e)),
       { c with svcCalls := c.svcCalls + 1 }) := by
  unfold fetchAndCache
  rw [hsvc]

theorem isStaleOrMissing_mono (c : TransparentCache) (now now' : Int) (k : String)
    (h : isStaleOrMissing c now k = true) (hle : now ≤ now') :
    isStaleOrMissing c now' k = true := by
  unfold isStaleOrMissing at *
  cases hl : lookupStore c.prices k with
  | none => rfl
  | some v =>
      rw [hl] at h
      by_cases hf : now - v.CreatedAt < c.maxAge
      · simp [hf] at h
      · have : ¬ now' - v.CreatedAt < c.maxAge := by omega
        simp [this]

theorem getPriceFor_fetch_calls (c : TransparentCache) (now : Int) (k : String)
    (h : isStaleOrMissing c now k = true) :
    ((c.GetPriceFor now k).2).svcCalls = c.svcCalls + 1 ∧
    ((c.GetPriceFor now k).2).maxAge = c.maxAge ∧
    ((c.GetPriceFor now k).2).actualPriceService = c.actualPriceService := by
  rw [getPriceFor_fetch c now k h]
  unfold fetchAndCache
  rcases hsvc : c.actualPriceService k with ⟨q, eo⟩
  cases eo <;> simp

/-! ### Claims about single-key lookup -/

/-- Claim C1: when the store holds an entry for the item whose age is strictly
below `maxAge`, `GetPriceFor` returns that entry's price with nil error,
leaves the cache (store and collaborator-invocation count) unchanged; and
consequently after a successful fetch, a second call within `maxAge` of it
returns the same price with the collaborator invoked only once in total. -/
theorem claim1_cache_hit (c : TransparentCache) (now now' : Int) (k : String) :
    (∀ v, lookupStore c.prices k = some v → now - v.CreatedAt < c.maxAge →
      c.GetPriceFor now k = ((v.Price, none), c)) ∧
    (∀ p, isStaleOrMissing c now k = true → c.actualPriceService k = (p, none) →
      now' - now < c.maxAge →
      (c.GetPriceFor now k).1 = (p, none) ∧
      ((c.GetPriceFor now k).2).svcCalls = c.svcCalls + 1 ∧
      ((c.GetPriceFor now k).2).GetPriceFor now' k =
        ((p, none), (c.GetPriceFor now k).2)) := by
  constructor
  · intro v hv hfresh
    exact getPriceFor_hit c now k v hv hfresh
  · intro p hmiss hsvc hwin
    have hstep : c.GetPriceFor now k =
        ((p, none),
         { c with
             svcCalls := c.svcCalls + 1
             prices := storeInsert c.prices k ⟨p, now⟩ }) := by
      rw [getPriceFor_fetch c now k hmiss, fetchAndCache_success c now k p hsvc]
    have h2 : (c.GetPriceFor now k).2 =
        { c with
            svcCalls := c.svcCalls + 1
            prices := storeInsert c.prices k ⟨p, now⟩ } := by rw [hstep]
    refine ⟨by rw [hstep], by rw [hstep], ?_⟩
    rw [h2]
    exact getPriceFor_hit _ now' k ⟨p, now⟩
      (lookupStore_storeInsert_self c.prices k ⟨p, now⟩) hwin

/-- Witness for C1: a fetch at instant 0 then a hit at instant 30 on a
60-unit freshness window, on a concrete cache. -/
theorem claim1_cache_hit_witness :
    (cacheEmpty.GetPriceFor 0 "A").1 = (10, none) ∧
    ((cacheEmpty.GetPriceFor 0 "A").2).svcCalls = cacheEmpty.svcCalls + 1 ∧
    ((cacheEmpty.GetPriceFor 0 "A").2).GetPriceFor 30 "A" =
      ((10, none), (cacheEmpty.GetPriceFor 0 "A").2) :=
  (claim1_cache_hit cacheEmpty 0 30 "A").2 10 rfl rfl (by decide)

/-- Claim C2: on a miss or stale entry, with a successful collaborator call,
`GetPriceFor` invokes the collaborator exactly once, writes the returned
price with the current timestamp into the store (overwriting any prior
entry for the key) and returns that price with nil error. -/
theorem claim2_miss_fetch_store (c : TransparentCache) (now : Int) (k : String) (p : Int)
    (hmiss : isStaleOrMissing c now k = true)
    (hsvc : c.actualPriceService k = (p, none)) :
    c.GetPriceFor now k =
      ((p, none),
       { c with
           svcCalls := c.svcCalls + 1
           prices := storeInsert c.prices k ⟨p, now⟩ }) ∧
    lookupStore ((c.GetPriceFor now k).2).prices k = some ⟨p, now⟩ := by
  have hstep : c.GetPriceFor now k =
      ((p, none),
       { c with
           svcCalls := c.svcCalls + 1
           prices := storeInsert c.prices k ⟨p, now⟩ }) := by
    rw [getPriceFor_fetch c now k hmiss, fetchAndCache_success c now k p hsvc]
  refine ⟨hstep, ?_⟩
  rw [hstep]
  exact lookupStore_storeInsert_self c.prices k ⟨p, now⟩

/-- Witness for C2: a stale entry for "A" (age 60 = maxAge 60) is overwritten
by a re-fetch on a concrete cache. -/
theorem claim2_miss_fetch_store_witness :
    cacheStale.GetPriceFor 60 "A" =
      ((10, none),
       { cacheStale with
           svcCalls := cacheStale.svcCalls + 1
           prices := storeInsert cacheStale.prices "A" ⟨10, 60⟩ }) ∧
    lookupStore ((cacheStale.GetPriceFor 60 "A").2).prices "A" = some ⟨10, 60⟩ :=
  claim2_miss_fetch_store cacheStale 60 "A" 10 (by decide) rfl

/-- Claim C3: when the collaborator call fails, `GetPriceFor` returns price 0
together with the wrapped error, leaves the store completely unchanged, and a
subsequent call (at any later instant) invokes the collaborator again. -/
theorem claim3_failure_not_cached (c : TransparentCache) (now now' : Int) (k : String)
    (q : Int) (e : String)
    (hmiss : isStaleOrMissing c now k = true)
    (hsvc : c.actualPriceService k = (q, some e))
    (hle : now ≤ now') :
    c.GetPriceFor now k =
      ((0, some ("getting price from service : " ++ e)),
       { c with svcCalls := c.svcCalls + 1 }) ∧
    ((c.GetPriceFor now k).2).prices = c.prices ∧
    (((c.GetPriceFor now k).2).GetPriceFor now' k).2.svcCalls = c.svcCalls + 2 := by
  have hstep : c.GetPriceFor now k =
      ((0, some ("getting price from service : " ++ e)),
       { c with svcCalls := c.svcCalls + 1 }) := by
    rw [getPriceFor_fetch c now k hmiss, fetchAndCache_failure c now k q e hsvc]
  refine ⟨hstep, ?_, ?_⟩
  · rw [hstep]
  · rw [hstep]
    have hmiss' : isStaleOrMissing { c with svcCalls := c.svcCalls + 1 } now' k = true :=
      isStaleOrMissing_mono c now now' k hmiss hle
    have hc := (getPriceFor_fetch_calls { c with svcCalls := c.svcCalls + 1 } now' k hmiss').1
    simpa using hc

/-- Witness for C3: the collaborator fails for "B"; the error is wrapped, the
store stays empty, and a retry at instant 5 invokes the collaborator again. -/
theorem claim3_failure_not_cached_witness :
    cacheFail.GetPriceFor 0 "B" =
      ((0, some ("getting price from service : " ++ "boom")),
       { cacheFail with svcCalls := cacheFail.svcCalls + 1 }) ∧
    ((cacheFail.GetPriceFor 0 "B").2).prices = cacheFail.prices ∧
    (((cacheFail.GetPriceFor 0 "B").2).GetPriceFor 5 "B").2.svcCalls =
      cacheFail.svcCalls + 2 :=
  claim3_failure_not_cached cacheFail 0 5 "B" 0 "boom" rfl rfl (by decide)

/-! ### Case analysis of a single call's effect on the cache state -/

theorem getPriceFor_state_cases (c : TransparentCache) (now : Int) (k : String) :
    (c.GetPriceFor now k).2 = c ∨
    (c.GetPriceFor now k).2 = { c with svcCalls := c.svcCalls + 1 } ∨
    ∃ p, c.actualPriceService k = (p, none) ∧
      (c.GetPriceFor now k).2 =
        { c with
            svcCalls := c.svcCalls + 1
            prices := storeInsert c.prices k ⟨p, now⟩ } := by
  unfold TransparentCache.GetPriceFor fetchAndCache
  cases hl : lookupStore c.prices k with
  | some v =>
      by_cases hf : now - v.CreatedAt < c.maxAge
      · left
        simp [hf]
      · rcases hsvc : c.actualPriceService k with ⟨q, eo⟩
        cases eo with
        | none =>
            right; right
            exact ⟨q, by rfl, by simp [hf]⟩
        | some e =>
            right; left
            simp [hf, hsvc]
  | none =>
      rcases hsvc : c.actualPriceService k with ⟨q, eo⟩
      cases eo with
      | none =>
          right; right
          exact ⟨q, by rfl, by simp⟩
      | some e =>
          right; left
          simp [hsvc]

theorem getPriceFor_preserves_config (c : TransparentCache) (now : Int) (k : String) :
    ((c.GetPriceFor now k).2).maxAge = c.maxAge ∧
    ((c.GetPriceFor now k).2).actualPriceService = c.actualPriceService := by
  rcases getPriceFor_state_cases c now k with h | h | ⟨p, _, h⟩ <;> rw [h] <;> exact ⟨rfl, rfl⟩

theorem getPriceFor_entry_times (c : TransparentCache) (now : Int) (k k' : String)
    (v' : priceValue)
    (h : lookupStore ((c.GetPriceFor now k).2).prices k' = some v') :
    lookupStore c.prices k' = some v' ∨ v'.CreatedAt = now := by
  rcases getPriceFor_state_cases c now k with hs | hs | ⟨p, _, hs⟩ <;> rw [hs] at h
  · exact Or.inl h
  · exact Or.inl h
  · by_cases hk : k' = k
    · subst hk
      rw [lookupStore_storeInsert_self] at h
      injection h with h
      right
      rw [← h]
    · rw [lookupStore_storeInsert_ne _ _ _ _ hk] at h
      exact Or.inl h

theorem getPriceFor_entries_monotone (c : TransparentCache) (now : Int) (k k' : String)
    (v : priceValue) (h : lookupStore c.prices k' = some v) :
    ∃ v', lookupStore ((c.GetPriceFor now k).2).prices k' = some v' := by
  rcases getPriceFor_state_cases c now k with hs | hs | ⟨p, _, hs⟩ <;> rw [hs]
  · exact ⟨v, h⟩
  · exact ⟨v, h⟩
  · by_cases hk : k' = k
    · subst hk
      exact ⟨⟨p, now⟩, lookupStore_storeInsert_self c.prices k' ⟨p, now⟩⟩
    · exact ⟨v, by rw [lookupStore_storeInsert_ne _ _ _ _ hk]; exact h⟩

/-! ### Claims C6, C7, C9 -/

theorem staleOrMissing_of_maxAge_nonpos (c : TransparentCache) (now : Int) (k : String)
    (hma : c.maxAge ≤ 0)
    (hpast : ∀ v, lookupStore c.prices k = some v → v.CreatedAt ≤ now) :
    isStaleOrMissing c now k = true := by
  unfold isStaleOrMissing
  cases hl : lookupStore c.prices k with
  | none => rfl
  | some v =>
      have h1 := hpast v hl
      have h2 : ¬ now - v.CreatedAt < c.maxAge := by omega
      simp [h2]

/-- Claim C6: with `maxAge = 0` every call bypasses the cache: on any store
whose entries were written at or before `now`, two consecutive calls for the
same item each invoke the collaborator (two invocations in total). -/
theorem claim6_maxAge_zero_bypasses (c : TransparentCache) (now now' : Int) (k : String)
    (hzero : c.maxAge = 0)
    (hpast : ∀ k' v, lookupStore c.prices k' = some v → v.CreatedAt ≤ now)
    (hle : now ≤ now') :
    ((c.GetPriceFor now k).2).svcCalls = c.svcCalls + 1 ∧
    (((c.GetPriceFor now k).2).GetPriceFor now' k).2.svcCalls = c.svcCalls + 2 := by
  have hstale1 : isStaleOrMissing c now k = true :=
    staleOrMissing_of_maxAge_nonpos c now k (by omega) (fun v hv => hpast k v hv)
  have h1 := getPriceFor_fetch_calls c now k hstale1
  refine ⟨h1.1, ?_⟩
  have hzero1 : ((c.GetPriceFor now k).2).maxAge = 0 := by
    rw [(getPriceFor_preserves_config c now k).1, hzero]
  have hstale2 : isStaleOrMissing ((c.GetPriceFor now k).2) now' k = true := by
    apply staleOrMissing_of_maxAge_nonpos _ now' k (by omega)
    intro v hv
    rcases getPriceFor_entry_times c now k k v hv with hold | hnew
    · exact le_trans (hpast k v hold) hle
    · omega
  have h2 := getPriceFor_fetch_calls ((c.GetPriceFor now k).2) now' k hstale2
  rw [h2.1, h1.1]

/-- Witness for C6: `maxAge = 0`, empty store, instants 0 then 1: both calls
reach the collaborator. -/
theorem claim6_maxAge_zero_bypasses_witness :
    (((NewTransparentCache svcTen 0).GetPriceFor 0 "A").2).svcCalls =
      (NewTransparentCache svcTen 0).svcCalls + 1 ∧
    ((((NewTransparentCache svcTen 0).GetPriceFor 0 "A").2).GetPriceFor 1 "A").2.svcCalls =
      (NewTransparentCache svcTen 0).svcCalls + 2 :=
  claim6_maxAge_zero_bypasses (NewTransparentCache svcTen 0) 0 1 "A" rfl
    (by intro k' v hv; simp [NewTransparentCache, lookupStore] at hv) (by decide)

/-- Claim C7: the batch operation on an empty list of item codes returns an
empty price list and nil error, and leaves the cache (store and
collaborator-invocation count) unchanged, running no task. -/
theorem claim7_empty_batch (c : TransparentCache) (now : Int) :
    c.GetPricesFor now [] = (([], none), c) := rfl

/-- Claim C9: the constructor returns a cache with an empty store and no
collaborator activity, and the first lookup on a freshly constructed cache
invokes the collaborator. -/
theorem claim9_constructor_empty (svc : String → Int × Option String)
    (maxAge now : Int) (k : String) :
    (NewTransparentCache svc maxAge).prices = [] ∧
    (NewTransparentCache svc maxAge).svcCalls = 0 ∧
    ((NewTransparentCache svc maxAge).GetPriceFor now k).2.svcCalls = 1 := by
  refine ⟨rfl, rfl, ?_⟩
  have hst : isStaleOrMissing (NewTransparentCache svc maxAge) now k = true := rfl
  have h := (getPriceFor_fetch_calls (NewTransparentCache svc maxAge) now k hst).1
  simpa using h

/-! ### Full case split of a single call -/

theorem getPriceFor_cases (c : TransparentCache) (now : Int) (k : String) :
    (∃ v, lookupStore c.prices k = some v ∧ now - v.CreatedAt < c.maxAge ∧
      c.GetPriceFor now k = ((v.Price, none), c)) ∨
    (isStaleOrMissing c now k = true ∧
      ((∃ q e, c.actualPriceService k = (q, some e) ∧
          c.GetPriceFor now k =
            ((0, some ("getting price from service : " ++ e)),
             { c with svcCalls := c.svcCalls + 1 })) ∨
       (∃ p, c.actualPriceService k = (p, none) ∧
          c.GetPriceFor now k =
            ((p, none),
             { c with
                 svcCalls := c.svcCalls + 1
                 prices := storeInsert c.prices k ⟨p, now⟩ })))) := by
  cases hl : lookupStore c.prices k with
  | some v =>
      by_cases hf : now - v.CreatedAt < c.maxAge
      · exact Or.inl ⟨v, rfl, hf, getPriceFor_hit c now k v hl hf⟩
      · have hst : isStaleOrMissing c now k = true := by
          unfold isStaleOrMissing
          rw [hl]
          simp [hf]
        refine Or.inr ⟨hst, ?_⟩
        cases hsvc : c.actualPriceService k with
        | mk q eo =>
            cases eo with
            | some e =>
                exact Or.inl ⟨q, e, rfl,
                  by rw [getPriceFor_fetch c now k hst,
                         fetchAndCache_failure c now k q e hsvc]⟩
            | none =>
                exact Or.inr ⟨q, rfl,
                  by rw [getPriceFor_fetch c now k hst,
                         fetchAndCache_success c now k q hsvc]⟩
  | none =>
      have hst : isStaleOrMissing c now k = true := by
        unfold isStaleOrMissing
        rw [hl]
      refine Or.inr ⟨hst, ?_⟩
      cases hsvc : c.actualPriceService k with
      | mk q eo =>
          cases eo with
          | some e =>
              exact Or.inl ⟨q, e, rfl,
                by rw [getPriceFor_fetch c now k hst,
                       fetchAndCache_failure c now k q e hsvc]⟩
          | none =>
              exact Or.inr ⟨q, rfl,
                by rw [getPriceFor_fetch c now k hst,
                       fetchAndCache_success c now k q hsvc]⟩

/-! ### The visible result of a call does not depend on schedule history -/

theorem getPriceFor_fst_congr (c' c : TransparentCache) (now : Int) (k : String)
    (hma : c'.maxAge = c.maxAge)
    (hsvc : c'.actualPriceService = c.actualPriceService)
    (hlk : lookupStore c'.prices k = lookupStore c.prices k) :
    (c'.GetPriceFor now k).1 = (c.GetPriceFor now k).1 := by
  unfold TransparentCache.GetPriceFor fetchAndCache
  simp only [hlk, hma, hsvc]
  cases hl : lookupStore c.prices k with
  | none =>
      cases hs : c.actualPriceService k with
      | mk q eo => cases eo <;> simp
  | some v =>
      by_cases hf : now - v.CreatedAt < c.maxAge
      · simp [hf]
      · cases hs : c.actualPriceService k with
        | mk q eo => cases eo <;> simp [hf]

theorem getPriceFor_result_stable (c : TransparentCache) (now : Int) (code code' : String) :
    (((c.GetPriceFor now code).2).GetPriceFor now code').1 =
      (c.GetPriceFor now code').1 := by
  rcases getPriceFor_cases c now code with
    ⟨v, _, _, heq⟩ | ⟨_, ⟨q, e, hsvc, heq⟩ | ⟨p, hsvc, heq⟩⟩
  · have h2 : (c.GetPriceFor now code).2 = c := by rw [heq]
    rw [h2]
  · have h2 : (c.GetPriceFor now code).2 = { c with svcCalls := c.svcCalls + 1 } := by
      rw [heq]
    rw [h2]
    exact getPriceFor_fst_congr _ c now code' rfl rfl rfl
  · have h2 : (c.GetPriceFor now code).2 =
        { c with
            svcCalls := c.svcCalls + 1
            prices := storeInsert c.prices code ⟨p, now⟩ } := by rw [heq]
    rw [h2]
    by_cases hk : code' = code
    · subst hk
      have hrhs : (c.GetPriceFor now code').1 = (p, none) := by rw [heq]
      rw [hrhs]
      by_cases h0 : now - now < c.maxAge
      · have hhit := getPriceFor_hit
          { c with
              svcCalls := c.svcCalls + 1
              prices := storeInsert c.prices code' ⟨p, now⟩ }
          now code' ⟨p, now⟩
          (lookupStore_storeInsert_self c.prices code' ⟨p, now⟩) h0
        rw [hhit]
      · have hst2 : isStaleOrMissing
            { c with
                svcCalls := c.svcCalls + 1
                prices := storeInsert c.prices code' ⟨p, now⟩ } now code' = true := by
          unfold isStaleOrMissing
          rw [show lookupStore
                ({ c with
                     svcCalls := c.svcCalls + 1
                     prices := storeInsert c.prices code' ⟨p, now⟩ } :
                   TransparentCache).prices code' = some ⟨p, now⟩ from
                lookupStore_storeInsert_self c.prices code' ⟨p, now⟩]
          show (if now - now < c.maxAge then false else true) = true
          rw [if_neg h0]
        have hfetch := getPriceFor_fetch
          { c with
              svcCalls := c.svcCalls + 1
              prices := storeInsert c.prices code' ⟨p, now⟩ } now code' hst2
        have hsucc := fetchAndCache_success
          { c with
              svcCalls := c.svcCalls + 1
              prices := storeInsert c.prices code' ⟨p, now⟩ } now code' p hsvc
        rw [hfetch, hsucc]
    · exact getPriceFor_fst_congr _ c now code' rfl rfl
        (lookupStore_storeInsert_ne c.prices code code' ⟨p, now⟩ hk)

/-! ### Responses of the batch workers -/

theorem runTasks_responses (now : Int) (order : List String) (c : TransparentCache) :
    (runTasks now order c).1 =
      order.map (fun code =>
        ⟨((c.GetPriceFor now code).1).1, ((c.GetPriceFor now code).1).2⟩) := by
  induction order generalizing c with
  | nil => rfl
  | cons code rest ih =>
      show (⟨((c.GetPriceFor now code).1).1, ((c.GetPriceFor now code).1).2⟩ :
              priceResponse) ::
            (runTasks now rest ((c.GetPriceFor now code).2)).1 = _
      rw [List.map_cons]
      congr 1
      rw [ih ((c.GetPriceFor now code).2)]
      apply List.map_congr_left
      intro code' _
      rw [getPriceFor_result_stable c now code code']

/-! ### The collection loop -/

theorem collectResults_all_ok (rs : List priceResponse)
    (h : ∀ r ∈ rs, r.Err = none) :
    collectResults rs = (rs.map (fun r => r.Price), none) := by
  induction rs with
  | nil => rfl
  | cons r rest ih =>
      have hr : r.Err = none := h r (List.mem_cons_self r rest)
      have hrest := ih (fun x hx => h x (List.mem_cons_of_mem r hx))
      simp [collectResults, hr, hrest]

theorem collectResults_first_err (rs : List priceResponse)
    (h : rs.any (fun r => r.Err.isSome) = true) :
    ∃ r, rs.find? (fun r => r.Err.isSome) = some r ∧ r.Err.isSome = true ∧
      collectResults rs =
        ((rs.takeWhile (fun r => r.Err.isNone)).map (fun r => r.Price), r.Err) := by
  induction rs with
  | nil => simp at h
  | cons r rest ih =>
      cases hr : r.Err with
      | some e =>
          refine ⟨r, ?_, by simp [hr], ?_⟩
          · rw [List.find?_cons_of_pos _ (by simp [hr])]
          · rw [List.takeWhile_cons_of_neg (by simp [hr])]
            simp [collectResults, hr]
      | none =>
          have h' : rest.any (fun r => r.Err.isSome) = true := by
            simpa [hr] using h
          obtain ⟨r0, hfind, hsome, hcoll⟩ := ih h'
          refine ⟨r0, ?_, hsome, ?_⟩
          · rw [List.find?_cons_of_neg _ (by simp [hr]), hfind]
          · rw [List.takeWhile_cons_of_pos (by simp [hr])]
            simp [collectResults, hr, hcoll]

/-! ### Claims about the batch operation -/

/-- Claim C4: if at least one code's lookup in the batch fails, the batch
call returns a non-nil error, namely the error of the first failing response
in collection order, together with the prices collected before that point;
the final cache state is the one after every launched task has run. -/
theorem claim4_batch_failure (c : TransparentCache) (now : Int) (order : List String)
    (hfail : ∃ code ∈ order, (((c.GetPriceFor now code).1).2).isSome = true) :
    ∃ r, ((runTasks now order c).1).find? (fun r => r.Err.isSome) = some r ∧
      (c.GetPricesFor now order).1.2 = r.Err ∧ r.Err ≠ none ∧
      (c.GetPricesFor now order).1.1 =
        (((runTasks now order c).1).takeWhile (fun r => r.Err.isNone)).map
          (fun r => r.Price) ∧
      (c.GetPricesFor now order).2 = (runTasks now order c).2 := by
  have hany : ((runTasks now order c).1).any (fun r => r.Err.isSome) = true := by
    rw [runTasks_responses, List.any_eq_true]
    obtain ⟨code, hmem, hsome⟩ := hfail
    exact ⟨_, List.mem_map_of_mem _ hmem, hsome⟩
  obtain ⟨r, hfind, hsome, hcoll⟩ := collectResults_first_err _ hany
  refine ⟨r, hfind, ?_, ?_, ?_, rfl⟩
  · show (collectResults (runTasks now order c).1).2 = r.Err
    rw [hcoll]
  · intro hnone
    rw [hnone] at hsome
    simp at hsome
  · show (collectResults (runTasks now order c).1).1 = _
    rw [hcoll]

/-- Witness for C4: the collaborator fails for "B" in the batch
("A","B","C") collected in that order on a fresh cache. -/
theorem claim4_batch_failure_witness :
    ∃ r, ((runTasks 0 ["A", "B", "C"] cacheFail).1).find?
        (fun r => r.Err.isSome) = some r ∧
      (cacheFail.GetPricesFor 0 ["A", "B", "C"]).1.2 = r.Err ∧ r.Err ≠ none ∧
      (cacheFail.GetPricesFor 0 ["A", "B", "C"]).1.1 =
        (((runTasks 0 ["A", "B", "C"] cacheFail).1).takeWhile
          (fun r => r.Err.isNone)).map (fun r => r.Price) ∧
      (cacheFail.GetPricesFor 0 ["A", "B", "C"]).2 =
        (runTasks 0 ["A", "B", "C"] cacheFail).2 :=
  claim4_batch_failure cacheFail 0 ["A", "B", "C"]
    ⟨"B", by decide, by decide⟩

theorem batch_success_core (c : TransparentCache) (now : Int)
    (itemCodes order : List String) (hperm : order.Perm itemCodes)
    (hok : ∀ code ∈ itemCodes, ((c.GetPriceFor now code).1).2 = none) :
    collectResults (runTasks now order c).1 =
      (order.map (fun code => ((c.GetPriceFor now code).1).1), none) := by
  have hok' : ∀ r ∈ (runTasks now order c).1, r.Err = none := by
    rw [runTasks_responses]
    intro r hr
    obtain ⟨code, hmem, rfl⟩ := List.mem_map.mp hr
    exact hok code (hperm.subset hmem)
  rw [collectResults_all_ok _ hok', runTasks_responses, List.map_map]
  rfl

/-- Counterexample to C5 as stated: the batch ("A","B") under the completion
schedule ("B","A") — a schedule the channel can realize, with no failing
lookup — returns the two prices in collection order (2, 1), which does not
agree positionally with the independent single-key results (1, 2). -/
theorem claim5_positional_counterexample :
    List.Perm ["B", "A"] ["A", "B"] ∧
    (∀ code ∈ ["A", "B"], ((cacheAB.GetPriceFor 0 code).1).2 = none) ∧
    (cacheAB.GetPricesFor 0 ["B", "A"]).1.2 = none ∧
    ((cacheAB.GetPricesFor 0 ["B", "A"]).1.1).length = 2 ∧
    (cacheAB.GetPricesFor 0 ["B", "A"]).1.1 ≠
      ["A", "B"].map (fun code => ((cacheAB.GetPriceFor 0 code).1).1) :=
  ⟨List.Perm.swap "A" "B" [], by decide, by decide, by decide, by decide⟩

/-- Claim C5 (amended): for a batch in which no lookup fails, the batch call
returns exactly N prices and nil error; the prices follow the collection
schedule (price j is the independent single-key result for the j-th collected
identifier), hence they are a permutation of the independent single-key
results for the requested identifiers — positional agreement with the input
order is not guaranteed. -/
theorem claim5_batch_success (c : TransparentCache) (now : Int)
    (itemCodes order : List String) (hperm : order.Perm itemCodes)
    (hok : ∀ code ∈ itemCodes, ((c.GetPriceFor now code).1).2 = none) :
    (c.GetPricesFor now order).1.2 = none ∧
    ((c.GetPricesFor now order).1.1).length = itemCodes.length ∧
    (c.GetPricesFor now order).1.1 =
      order.map (fun code => ((c.GetPriceFor now code).1).1) ∧
    ((c.GetPricesFor now order).1.1).Perm
      (itemCodes.map (fun code => ((c.GetPriceFor now code).1).1)) := by
  have hcore := batch_success_core c now itemCodes order hperm hok
  have hfst : (c.GetPricesFor now order).1.1 =
      order.map (fun code => ((c.GetPriceFor now code).1).1) := by
    show (collectResults (runTasks now order c).1).1 = _
    rw [hcore]
  refine ⟨?_, ?_, hfst, ?_⟩
  · show (collectResults (runTasks now order c).1).2 = none
    rw [hcore]
  · rw [hfst, List.length_map, hperm.length_eq]
  · rw [hfst]
    exact hperm.map _

/-- Witness for C5 (amended): batch ("A","B") collected in the order
("B","A") on a fresh cache. -/
theorem claim5_batch_success_witness :
    (cacheAB.GetPricesFor 0 ["B", "A"]).1.2 = none ∧
    ((cacheAB.GetPricesFor 0 ["B", "A"]).1.1).length =
      (["A", "B"] : List String).length ∧
    (cacheAB.GetPricesFor 0 ["B", "A"]).1.1 =
      ["B", "A"].map (fun code => ((cacheAB.GetPriceFor 0 code).1).1) ∧
    ((cacheAB.GetPricesFor 0 ["B", "A"]).1.1).Perm
      (["A", "B"].map (fun code => ((cacheAB.GetPriceFor 0 code).1).1)) :=
  claim5_batch_success cacheAB 0 ["A", "B"] ["B", "A"]
    (List.Perm.swap "A" "B" []) (by decide)

/-- Claim C10: duplicate identifiers in a batch are not de-duplicated: every
occurrence gets its own worker task and, when no lookup fails, its own price
in the result, so the result length equals the input length counting
duplicates. -/
theorem claim10_duplicates_not_deduped (c : TransparentCache) (now : Int)
    (itemCodes order : List String) (hperm : order.Perm itemCodes)
    (hdup : ∃ code, 1 < itemCodes.count code)
    (hok : ∀ code ∈ itemCodes, ((c.GetPriceFor now code).1).2 = none) :
    ((runTasks now order c).1).length = itemCodes.length ∧
    ((c.GetPricesFor now order).1.1).length = itemCodes.length ∧
    (c.GetPricesFor now order).1.2 = none := by
  have hcore := batch_success_core c now itemCodes order hperm hok
  refine ⟨?_, ?_, ?_⟩
  · rw [runTasks_responses, List.length_map, hperm.length_eq]
  · show (collectResults (runTasks now order c).1).1.length = _
    rw [hcore]
    show (order.map _).length = _
    rw [List.length_map, hperm.length_eq]
  · show (collectResults (runTasks now order c).1).2 = none
    rw [hcore]

/-- Witness for C10: the batch ("A","A") on a fresh cache yields two tasks
and two prices. -/
theorem claim10_duplicates_not_deduped_witness :
    ((runTasks 0 ["A", "A"] cacheEmpty).1).length =
      (["A", "A"] : List String).length ∧
    ((cacheEmpty.GetPricesFor 0 ["A", "A"]).1.1).length =
      (["A", "A"] : List String).length ∧
    (cacheEmpty.GetPricesFor 0 ["A", "A"]).1.2 = none :=
  claim10_duplicates_not_deduped cacheEmpty 0 ["A", "A"] ["A", "A"]
    (List.Perm.refl _) ⟨"A", by decide⟩ (by decide)

/-! ### The store invariant -/

theorem storeInv_getPriceFor (c : TransparentCache) (now : Int) (k : String)
    (h : StoreInv c) : StoreInv ((c.GetPriceFor now k).2) := by
  rcases getPriceFor_state_cases c now k with hs | hs | ⟨p, hsvc, hs⟩ <;> rw [hs]
  · exact h
  · exact h
  · intro k' v' hv'
    by_cases hk : k' = k
    · subst hk
      rw [show lookupStore
            ({ c with
                 svcCalls := c.svcCalls + 1
                 prices := storeInsert c.prices k' ⟨p, now⟩ } :
               TransparentCache).prices k' = some ⟨p, now⟩ from
            lookupStore_storeInsert_self c.prices k' ⟨p, now⟩] at hv'
      injection hv' with hv'
      rw [← hv']
      exact hsvc
    · rw [show lookupStore
            ({ c with
                 svcCalls := c.svcCalls + 1
                 prices := storeInsert c.prices k ⟨p, now⟩ } :
               TransparentCache).prices k' = lookupStore c.prices k' from
            lookupStore_storeInsert_ne c.prices k k' ⟨p, now⟩ hk] at hv'
      exact h k' v' hv'

theorem storeInv_runTasks (now : Int) (order : List String) :
    ∀ c : TransparentCache, StoreInv c → StoreInv ((runTasks now order c).2) := by
  induction order with
  | nil => exact fun c h => h
  | cons code rest ih =>
      intro c h
      exact ih ((c.GetPriceFor now code).2) (storeInv_getPriceFor c now code h)

/-- Claim C8: the store invariant — every entry records the price of a
successful collaborator call and no entry comes from a failed call — holds
for the freshly constructed cache and is preserved by the single-key and the
batch operation; moreover entries are only created or overwritten, never
deleted: a key present before a call is still present after it. -/
theorem claim8_store_invariant (svc : String → Int × Option String)
    (maxAge now : Int) (c : TransparentCache) (k : String) (order : List String) :
    StoreInv (NewTransparentCache svc maxAge) ∧
    (StoreInv c → StoreInv ((c.GetPriceFor now k).2)) ∧
    (StoreInv c → StoreInv ((c.GetPricesFor now order).2)) ∧
    (∀ k' v, lookupStore c.prices k' = some v →
      ∃ v', lookupStore ((c.GetPriceFor now k).2).prices k' = some v') := by
  refine ⟨?_, storeInv_getPriceFor c now k, ?_, ?_⟩
  · intro k' v hv
    simp [NewTransparentCache, lookupStore] at hv
  · intro h
    exact storeInv_runTasks now order c h
  · intro k' v hv
    exact getPriceFor_entries_monotone c now k k' v hv

/-- Witness for C8: the invariant holds on a fresh cache and after a lookup
for "A" on it. -/
theorem claim8_store_invariant_witness :
    StoreInv ((cacheEmpty.GetPriceFor 0 "A").2) :=
  (claim8_store_invariant svcTen 60 0 cacheEmpty "A" []).2.1
    ((claim8_store_invariant svcTen 60 0 cacheEmpty "A" []).1)
